import Mathlib

/-!
Shallow embedding of the cryptoquest backend core (score submission and
aggregation).  The definitions below are translated from the MongoDB revision
of the source (`src/server.js` endpoints 1-5 and `src/database.js` class
`Database`), which is the revision the specification unifies the design
around.  The accrual step of the SQLite revision (`src/server.js`, the
`POST /api/scores` handler that computes `newTotalScore = user.total_score +
score` and then writes it back) is embedded separately as a two-step
read/write machine, used to analyse the concurrency claim.

JavaScript numbers are modelled as rationals (`ℚ`), timestamps as natural
numbers, and the two MongoDB collections (`users`, `scores`) as lists of
records.  The per-collection unique indexes (`walletAddress` on users,
`(walletAddress, quizId)` on scores) are modelled by the membership test the
index performs at insert time.
-/

deriving instance DecidableEq for Except

namespace CryptoQuest

/-! ### JavaScript string primitives -/

/-- Model of JavaScript `String.prototype.toLowerCase()`. -/
def jsToLower (s : String) : String := ⟨s.data.map Char.toLower⟩

/-- Model of JavaScript `String.prototype.trim()`: strip leading and trailing
whitespace. -/
def jsTrim (s : String) : String :=
  ⟨((s.data.dropWhile Char.isWhitespace).reverse.dropWhile Char.isWhitespace).reverse⟩

/-- Model of JavaScript `String.prototype.startsWith(p)`. -/
def jsStartsWith (s p : String) : Bool := p.data.isPrefixOf s.data

/-- Substring occurrence test on character lists (helper for `jsIncludes`). -/
def containsSub (pat : List Char) : List Char → Bool
  | [] => pat.isEmpty
  | c :: cs => pat.isPrefixOf (c :: cs) || containsSub pat cs

/-- Model of JavaScript `String.prototype.includes(p)`. -/
def jsIncludes (s p : String) : Bool := containsSub p.data s.data

/-- One character of `[a-fA-F0-9]`. -/
def isHexChar (c : Char) : Bool :=
  (97 ≤ c.toNat && c.toNat ≤ 102) || (65 ≤ c.toNat && c.toNat ≤ 70) ||
    (48 ≤ c.toNat && c.toNat ≤ 57)

/-- `src/server.js` `isValidWalletAddress`: the regular expression
`^0x[a-fA-F0-9]{40}$`. -/
def isValidWalletAddress (s : String) : Bool :=
  jsStartsWith s "0x" && s.data.length == 42 && (s.data.drop 2).all isHexChar

/-- `src/server.js` `isValidIPFSUrl` (the branch for a truthy argument; the
handler only calls it on a truthy `profilePictureUrl`). -/
def isValidIPFSUrl (url : String) : Bool :=
  jsStartsWith url "ipfs://" || jsStartsWith url "https://ipfs.io/ipfs/" ||
    jsStartsWith url "https://gateway.pinata.cloud/ipfs/" || jsIncludes url "ipfs"

/-- JavaScript `Math.round` on a rational: round half towards positive
infinity. -/
def jsRound (q : ℚ) : ℤ := Rat.floor (q + 1/2)

/-! ### Data model -/

/-- A document of the `users` collection. -/
structure User where
  walletAddress : String
  username : String
  profilePictureUrl : Option String
  totalScore : ℚ
  level : String
  createdAt : Nat
  updatedAt : Nat
deriving DecidableEq

/-- A document of the `scores` collection. -/
structure Score where
  walletAddress : String
  quizId : String
  score : ℚ
  difficulty : String
  maxScore : ℚ
  percentage : ℚ
  createdAt : Nat
deriving DecidableEq

/-- The two MongoDB collections. -/
structure DB where
  users : List User
  scores : List Score
deriving DecidableEq

/-- The freshly initialized database. -/
def emptyDB : DB := ⟨[], []⟩

/-- Update the first element satisfying `p` by `f`, returning the new list and
the updated element (the model of MongoDB `findOneAndUpdate` with
`returnDocument: 'after'`). -/
def updateFirstRet (p : α → Bool) (f : α → α) : List α → List α × Option α
  | [] => ([], none)
  | x :: xs =>
    if p x then (f x :: xs, some (f x))
    else
      let r := updateFirstRet p f xs
      (x :: r.1, r.2)

/-! ### `src/database.js` operations (MongoDB revision) -/

inductive DbErr where
  | invalidWalletFormat
  | invalidUsernameLength
  | userAlreadyExists
  | quizAlreadyCompleted
deriving DecidableEq

structure UserData where
  walletAddress : String
  username : String
  profilePictureUrl : Option String
deriving DecidableEq

/-- `database.createUser`: sanitize, validate, then insert; the unique index
on `walletAddress` turns a duplicate insert into `USER_ALREADY_EXISTS`. -/
def createUser (db : DB) (now : Nat) (ud : UserData) : DB × Except DbErr User :=
  let user : User :=
    { walletAddress := jsTrim (jsToLower ud.walletAddress)
      username := jsTrim ud.username
      profilePictureUrl :=
        match ud.profilePictureUrl with
        | some p => if p = "" then none else some (jsTrim p)
        | none => none
      totalScore := 0
      level := "beginner"
      createdAt := now
      updatedAt := now }
  if ¬ isValidWalletAddress user.walletAddress then (db, .error .invalidWalletFormat)
  else if user.username.data.length < 3 ∨ 30 < user.username.data.length then
    (db, .error .invalidUsernameLength)
  else if db.users.any (fun u => u.walletAddress == user.walletAddress) then
    (db, .error .userAlreadyExists)
  else ({ db with users := db.users ++ [user] }, .ok user)

/-- Find a stored user by an exact wallet-address key. -/
def findUserRaw (db : DB) (walletAddress : String) : Option User :=
  db.users.find? (fun u => u.walletAddress == walletAddress)

/-- `database.getUserByWallet`: look the user up by the lower-cased, trimmed
wallet address. -/
def getUserByWallet (db : DB) (walletAddress : String) : Option User :=
  findUserRaw db (jsTrim (jsToLower walletAddress))

/-- The partial-update payload of `database.updateUser`: an outer `none`
models an absent (`undefined`) field. -/
structure UpdateData where
  username : Option String
  profilePictureUrl : Option (Option String)
deriving DecidableEq

/-- The `$set` payload `database.updateUser` applies to the matched user:
only the supplied profile fields, plus `updatedAt`. -/
def profileSetFn (now : Nat) (ud : UpdateData) (u : User) : User :=
  let u1 := match ud.username with
    | some s => if s ≠ "" then { u with username := jsTrim s } else u
    | none => u
  let u2 := match ud.profilePictureUrl with
    | some v =>
      { u1 with profilePictureUrl :=
          match v with
          | some p => if p = "" then none else some (jsTrim p)
          | none => none }
    | none => u1
  { u2 with updatedAt := now }

/-- `database.updateUser`: validate the supplied name, then `$set` only the
supplied profile fields (plus `updatedAt`) on the matched user. -/
def updateUser (db : DB) (now : Nat) (walletAddress : String) (ud : UpdateData) :
    DB × Except DbErr (Option User) :=
  if (match ud.username with
      | some s => s != "" && ((jsTrim s).data.length.blt 3 || Nat.blt 30 (jsTrim s).data.length)
      | none => false) then
    (db, .error .invalidUsernameLength)
  else
    let r := updateFirstRet (fun u => u.walletAddress == jsTrim (jsToLower walletAddress))
      (profileSetFn now ud) db.users
    ({ db with users := r.1 }, .ok r.2)

structure ScoreData where
  walletAddress : String
  quizId : String
  score : ℚ
  difficulty : String
  maxScore : ℚ
deriving DecidableEq

/-- The score document `database.createScore` builds: note the `|| 20`
fallback applied to a falsy (zero) `maxScore` in both the stored `maxScore`
and the divisor of `percentage`. -/
def mkScoreDoc (now : Nat) (d : ScoreData) : Score :=
  { walletAddress := jsToLower d.walletAddress
    quizId := d.quizId
    score := d.score
    difficulty := d.difficulty
    maxScore := if d.maxScore = 0 then 20 else d.maxScore
    percentage := d.score / (if d.maxScore = 0 then 20 else d.maxScore) * 100
    createdAt := now }

/-- `database.createScore`: insert the score document; the unique index on
`(walletAddress, quizId)` turns a duplicate insert into
`Quiz already completed by this user`. -/
def createScore (db : DB) (now : Nat) (d : ScoreData) : DB × Except DbErr Score :=
  let s := mkScoreDoc now d
  if db.scores.any (fun e => e.walletAddress == s.walletAddress && e.quizId == s.quizId) then
    (db, .error .quizAlreadyCompleted)
  else ({ db with scores := db.scores ++ [s] }, .ok s)

/-- Number of score documents stored for a wallet address (the `$lookup` size
and the history `countDocuments`). -/
def countScoresFor (db : DB) (w : String) : Nat :=
  (db.scores.filter (fun s => s.walletAddress == w)).length

/-- The `$inc` update `database.updateUserTotalScore` applies to the matched
user. -/
def accrueFn (now : Nat) (scoreToAdd : ℚ) (u : User) : User :=
  { u with totalScore := u.totalScore + scoreToAdd, updatedAt := now }

/-- The filter of `database.updateUserTotalScore`: match on the lower-cased
wallet address. -/
def accruePred (walletAddress : String) (u : User) : Bool :=
  u.walletAddress == jsToLower walletAddress

/-- `database.updateUserTotalScore`: a single `findOneAndUpdate` with
`$inc: { totalScore: scoreToAdd }`. -/
def updateUserTotalScore (db : DB) (now : Nat) (walletAddress : String) (scoreToAdd : ℚ) :
    DB × Option User :=
  let r := updateFirstRet (accruePred walletAddress) (accrueFn now scoreToAdd) db.users
  ({ db with users := r.1 }, r.2)

/-! ### Sorting (MongoDB `$sort` with a descending key) -/

/-- Insert into a list kept in descending `key` order. -/
def insertKeyDesc [LinearOrder β] (key : α → β) (x : α) : List α → List α
  | [] => [x]
  | y :: ys => if key y ≤ key x then x :: y :: ys else y :: insertKeyDesc key x ys

/-- Sort a list into descending `key` order. -/
def sortKeyDesc [LinearOrder β] (key : α → β) : List α → List α
  | [] => []
  | x :: xs => insertKeyDesc key x (sortKeyDesc key xs)

/-- `database.getUserScoreHistory` result: entries sorted by `createdAt`
descending, paginated by `skip(offset).limit(limit)`, plus the total count. -/
structure HistoryResult where
  scores : List Score
  total : Nat
  hasMore : Bool
deriving DecidableEq

/-- `database.getUserScoreHistory`. -/
def getUserScoreHistory (db : DB) (walletAddress : String) (limit offset : Int) :
    HistoryResult :=
  let w := jsToLower walletAddress
  let filtered := db.scores.filter (fun s => s.walletAddress == w)
  let sorted := sortKeyDesc (fun s => s.createdAt) filtered
  let page := (sorted.drop offset.toNat).take limit.toNat
  { scores := page
    total := filtered.length
    hasMore := decide ((filtered.length : Int) > offset + page.length) }

/-- One row of the leaderboard aggregation after `$match`, `$lookup`,
`$addFields` and `$project`. -/
structure LBRow where
  walletAddress : String
  username : String
  profilePictureUrl : Option String
  totalScore : ℚ
  level : String
  createdAt : Nat
  quizCount : Nat
deriving DecidableEq

/-- One entry of the final leaderboard response. -/
structure LBEntry where
  rank : Nat
  walletAddress : String
  username : String
  profilePictureUrl : Option String
  score : ℚ
  level : String
  quizCount : Nat
  joinedDate : Nat
deriving DecidableEq

/-- The `$project`-ed row for one matched user. -/
def lbRowOf (db : DB) (u : User) : LBRow :=
  ⟨u.walletAddress, u.username, u.profilePictureUrl, u.totalScore, u.level, u.createdAt,
    countScoresFor db u.walletAddress⟩

/-- The final `users.map((user, index) => ({ rank: index + 1, ... }))`. -/
def lbEntryOf (rank : Nat) (r : LBRow) : LBEntry :=
  ⟨rank, r.walletAddress, r.username, r.profilePictureUrl, r.totalScore, r.level,
    r.quizCount, r.createdAt⟩

/-- Attach 1-based ranks in order, starting after rank `i`. -/
def rankify (i : Nat) : List LBRow → List LBEntry
  | [] => []
  | r :: rs => lbEntryOf (i + 1) r :: rankify (i + 1) rs

/-- `database.getLeaderboard`: `$match totalScore > 0`, `$lookup` the quiz
count, `$sort totalScore: -1`, `$limit`, then attach ranks. -/
def getLeaderboard (db : DB) (limit : Nat) : List LBEntry :=
  let matched := db.users.filter (fun u => (0:ℚ) < u.totalScore)
  let rows := matched.map (lbRowOf db)
  let sorted := sortKeyDesc (fun r => r.totalScore) rows
  rankify 0 (sorted.take limit)

/-! ### `src/server.js` handlers (MongoDB revision) -/

/-- The request body of `POST /api/users`.  Absent string fields are modelled
by `""` (falsy, like `undefined` under the handler's `!field` checks); an
absent `profilePictureUrl` by `none`. -/
structure UserReq where
  walletAddress : String
  username : String
  profilePictureUrl : Option String
deriving DecidableEq

inductive UserErr where
  | missingFields
  | invalidWalletFormat
  | invalidPictureUrl
  | invalidUsernameLength
  | updateFailed
  | alreadyExists
deriving DecidableEq

/-- The success payload of `POST /api/users`: a `201` creation or a `200`
update of the existing profile. -/
inductive UserResp where
  | created (u : User)
  | updated (u : User)
deriving DecidableEq

/-- The `POST /api/users` handler: validate, then update the profile when the
wallet is already registered and create it otherwise. -/
def postUsers (db : DB) (now : Nat) (r : UserReq) : DB × Except UserErr UserResp :=
  if r.walletAddress = "" ∨ r.username = "" then (db, .error .missingFields)
  else if ¬ isValidWalletAddress r.walletAddress then (db, .error .invalidWalletFormat)
  else if (match r.profilePictureUrl with
           | some p => p != "" && ¬ isValidIPFSUrl p
           | none => false) then (db, .error .invalidPictureUrl)
  else if r.username.data.length < 3 ∨ 30 < r.username.data.length then
    (db, .error .invalidUsernameLength)
  else if (getUserByWallet db r.walletAddress).isSome then
    let ud : UpdateData :=
      { username := some r.username
        profilePictureUrl :=
          match r.profilePictureUrl with
          | some p => if p = "" then none else some (some p)
          | none => none }
    let upd := updateUser db now r.walletAddress ud
    match upd.2 with
    | .ok (some u) => (upd.1, .ok (.updated u))
    | .ok none => (upd.1, .error .updateFailed)
    | .error _ => (upd.1, .error .invalidUsernameLength)
  else
    let cr := createUser db now ⟨r.walletAddress, r.username, r.profilePictureUrl⟩
    match cr.2 with
    | .ok u => (cr.1, .ok (.created u))
    | .error .userAlreadyExists => (cr.1, .error .alreadyExists)
    | .error _ => (cr.1, .error .invalidWalletFormat)

/-- The fixed difficulty enumeration of the `POST /api/scores` handler. -/
def validDifficulties : List String :=
  ["easy", "medium", "hard", "beginner", "intermediate", "advanced"]

/-- The request body of `POST /api/scores`.  `maxScore = none` models an
absent field, defaulted to `20` by the destructuring. -/
structure SubmitReq where
  walletAddress : String
  quizId : String
  score : ℚ
  difficulty : String
  maxScore : Option ℚ
deriving DecidableEq

inductive SubmitErr where
  | missingFields
  | invalidScore
  | invalidDifficulty
  | userNotFound
  | duplicateAttempt
  | totalUpdateFailed
deriving DecidableEq

/-- The HTTP status the handler reports for each failure. -/
def httpStatus : SubmitErr → Nat
  | .missingFields => 400
  | .invalidScore => 400
  | .invalidDifficulty => 400
  | .userNotFound => 404
  | .duplicateAttempt => 409
  | .totalUpdateFailed => 500

/-- The success payload of `POST /api/scores`. -/
structure SubmitResp where
  score : ℚ
  maxScore : ℚ
  percentage : ℤ
  difficulty : String
  newTotalScore : ℚ
  eligibleForReward : Bool
  submittedAt : Nat
deriving DecidableEq

/-- The score document the handler's `scoreData` produces through
`database.createScore`. -/
def scoreEntry (now : Nat) (r : SubmitReq) : Score :=
  mkScoreDoc now
    ⟨r.walletAddress, r.quizId, r.score, jsToLower r.difficulty, r.maxScore.getD 20⟩

/-- The `POST /api/scores` handler: validate, check the user exists, insert
the ledger entry, then `$inc` the user's total score and answer with the
rounded percentage and the reward eligibility computed from the unrounded
percentage. -/
def submitScore (db : DB) (now : Nat) (r : SubmitReq) : DB × Except SubmitErr SubmitResp :=
  let maxScore := r.maxScore.getD 20
  if r.walletAddress = "" ∨ r.quizId = "" ∨ r.difficulty = "" then
    (db, .error .missingFields)
  else if r.score < 0 ∨ maxScore < r.score then (db, .error .invalidScore)
  else if ¬ validDifficulties.contains (jsToLower r.difficulty) then
    (db, .error .invalidDifficulty)
  else if (getUserByWallet db r.walletAddress).isNone then (db, .error .userNotFound)
  else
    let cs := createScore db now
      ⟨r.walletAddress, r.quizId, r.score, jsToLower r.difficulty, maxScore⟩
    match cs.2 with
    | .error _ => (cs.1, .error .duplicateAttempt)
    | .ok newScore =>
      let percentage := newScore.percentage
      let upd := updateUserTotalScore cs.1 now r.walletAddress r.score
      match upd.2 with
      | none => (upd.1, .error .totalUpdateFailed)
      | some updatedUser =>
        (upd.1, .ok
          { score := newScore.score
            maxScore := newScore.maxScore
            percentage := jsRound percentage
            difficulty := newScore.difficulty
            newTotalScore := updatedUser.totalScore
            eligibleForReward := decide (70 ≤ percentage)
            submittedAt := newScore.createdAt })

/-- A sequence of submissions at consecutive timestamps; the flag reports
whether every call succeeded. -/
def submitAll (db : DB) (now : Nat) : List SubmitReq → DB × Bool
  | [] => (db, true)
  | r :: rs =>
    match submitScore db now r with
    | (db1, .ok _) => submitAll db1 (now + 1) rs
    | (db1, .error _) => (db1, false)

/-! ### Effective pagination parameters

`GET /api/users/:walletAddress/history` computes
`limit = Math.min(parseInt(req.query.limit) || 20, 100)` and
`offset = Math.max(parseInt(req.query.offset) || 0, 0)`;
`GET /api/leaderboard` computes
`limit = Math.min(parseInt(req.query.limit) || 100, 500)`.
`none` models a missing parameter or one whose `parseInt` is `NaN`. -/

def effHistoryLimit (q : Option Int) : Int :=
  min (match q with
       | none => 20
       | some n => if n = 0 then 20 else n) 100

def effHistoryOffset (q : Option Int) : Int :=
  max (match q with
       | none => 0
       | some n => n) 0

def effLeaderboardLimit (q : Option Int) : Int :=
  min (match q with
       | none => 100
       | some n => if n = 0 then 100 else n) 500

/-! ### Reachable states (exposed mutating operations) -/

/-- One exposed mutating request: the two `POST` endpoints (all other
endpoints only read). -/
inductive Step : DB → DB → Prop
  | postUsers (db : DB) (now : Nat) (r : UserReq) : Step db (postUsers db now r).1
  | submitScore (db : DB) (now : Nat) (r : SubmitReq) : Step db (submitScore db now r).1

/-- States reachable from the freshly initialized database. -/
inductive Reachable : DB → Prop
  | base : Reachable emptyDB
  | step {db db' : DB} : Reachable db → Step db db' → Reachable db'

/-! ### The two accrual implementations, raced

The MongoDB revision accrues with one atomic `$inc`
(`updateUserTotalScore`); racing two accruals means interleaving two
single-step operations.  The SQLite revision's `POST /api/scores` handler
instead computes `newTotalScore = user.total_score + score` from the
previously fetched `user` row and writes it back: each request is a separate
read step and write step on the shared `total_score`. -/

/-- Which of the two racing increments runs at a scheduling point. -/
inductive IncAct where
  | inc1
  | inc2
deriving DecidableEq

/-- Run a schedule of the two atomic `$inc` accruals (`d1` and `d2`) for
wallet `w` against the store. -/
def runIncSchedule (now : Nat) (w : String) (d1 d2 : ℚ) (db : DB) (sched : List IncAct) : DB :=
  sched.foldl
    (fun acc a =>
      (updateUserTotalScore acc now w (match a with | .inc1 => d1 | .inc2 => d2)).1)
    db

/-- The shared state of two racing SQLite-revision submissions: the stored
`total_score` plus each request's fetched copy of the user row. -/
structure SqliteRaceState where
  total : ℚ
  fetched1 : Option ℚ
  fetched2 : Option ℚ
deriving DecidableEq

/-- One scheduling point of the SQLite-revision race: each request first
fetches the user row (`db.get ... users`), later writes
`total_score = fetched + score` (`UPDATE users SET total_score = ?`). -/
inductive RaceAct where
  | fetch1
  | write1
  | fetch2
  | write2
deriving DecidableEq

/-- The effect of one scheduling point of the SQLite-revision accrual race. -/
def sqliteRaceStep (d1 d2 : ℚ) (s : SqliteRaceState) : RaceAct → SqliteRaceState
  | .fetch1 => { s with fetched1 := some s.total }
  | .write1 => { s with total := s.fetched1.getD 0 + d1 }
  | .fetch2 => { s with fetched2 := some s.total }
  | .write2 => { s with total := s.fetched2.getD 0 + d2 }

/-- Run a schedule of the two racing SQLite-revision accruals. -/
def runSqliteRace (d1 d2 : ℚ) (s : SqliteRaceState) (sched : List RaceAct) : SqliteRaceState :=
  sched.foldl (sqliteRaceStep d1 d2) s

/-- Whether an `Except` result is a success. -/
def isOkE : Except ε α → Bool
  | .ok _ => true
  | .error _ => false

/-- Relation between a wallet's record before a step and after it: a record
present before may only grow its total; a record absent before starts at
total `0`. -/
def totalLB (prev : Option User) (u' : User) : Prop :=
  match prev with
  | none => u'.totalScore = 0
  | some u => u.totalScore ≤ u'.totalScore

/-! ### Concrete fixtures used by the witness and counterexample theorems -/

/-- A freshly created participant (total score `0`, no ledger entries). -/
def aliceUser : User := ⟨"0xaa", "alice", none, 0, "beginner", 0, 0⟩

/-- A store holding just `aliceUser` and an empty ledger. -/
def aliceDB : DB := ⟨[aliceUser], []⟩

/-- Submission of quiz `q1` with raw score `18` out of `20`. -/
def reqQ1 : SubmitReq := ⟨"0xaa", "q1", 18, "medium", some 20⟩

/-- Submission of quiz `q2` with raw score `10` out of `20`. -/
def reqQ2 : SubmitReq := ⟨"0xaa", "q2", 10, "medium", some 20⟩

/-- Submission with a raw score of `13.9` out of `20`: exactly `69.5`%. -/
def reqHalf : SubmitReq := ⟨"0xaa", "q1", 139/10, "medium", some 20⟩

/-- Submission with `maxScore = 0` and `rawScore = 0`. -/
def reqZero : SubmitReq := ⟨"0xaa", "q1", 0, "easy", some 0⟩

/-- The store after `reqQ1` succeeds against `aliceDB`. -/
def dbQ1 : DB :=
  ⟨[⟨"0xaa", "alice", none, 18, "beginner", 0, 0⟩],
   [⟨"0xaa", "q1", 18, "medium", 20, 90, 0⟩]⟩

/-- The response of `reqQ1` against `aliceDB`. -/
def respQ1 : SubmitResp := ⟨18, 20, 90, "medium", 18, true, 0⟩

/-- The store after `reqZero` succeeds against `aliceDB`. -/
def dbZ : DB :=
  ⟨[⟨"0xaa", "alice", none, 0, "beginner", 0, 0⟩],
   [⟨"0xaa", "q1", 0, "easy", 20, 0, 0⟩]⟩

/-- The response of `reqZero` against `aliceDB`. -/
def respZ : SubmitResp := ⟨0, 20, 0, "easy", 0, false, 0⟩

/-- The store after `reqHalf` succeeds against `aliceDB`. -/
def dbH : DB :=
  ⟨[⟨"0xaa", "alice", none, 139/10, "beginner", 0, 0⟩],
   [⟨"0xaa", "q1", 139/10, "medium", 20, 139/2, 0⟩]⟩

/-- The response of `reqHalf` against `aliceDB`: percentage rounded to `70`,
eligibility computed from the unrounded `69.5`. -/
def respH : SubmitResp := ⟨139/10, 20, 70, "medium", 139/10, false, 0⟩

/-- A full-length valid wallet address. -/
def wa40 : String := "0xaaaaaaaaaaaaaaaaaaaaaaaaaaaaaaaaaaaaaaaa"

/-- A registered participant under `wa40`. -/
def bobUser : User := ⟨wa40, "alice", none, 0, "beginner", 0, 0⟩

/-- A store holding just `bobUser`. -/
def bobDB : DB := ⟨[bobUser], []⟩

/-! ### Helper lemmas: `updateFirstRet` -/

theorem updateFirstRet_snd_eq_none {p : α → Bool} {f : α → α} {l : List α}
    (h : (updateFirstRet p f l).2 = none) : (updateFirstRet p f l).1 = l := by
  induction l with
  | nil => rfl
  | cons x xs ih =>
    by_cases hx : p x
    · simp [updateFirstRet, hx] at h
    · simp only [updateFirstRet, if_neg hx] at h ⊢
      exact congrArg (x :: ·) (ih h)

theorem updateFirstRet_snd_of_find? {p : α → Bool} (f : α → α) {l : List α} {x : α}
    (h : l.find? p = some x) : (updateFirstRet p f l).2 = some (f x) := by
  induction l with
  | nil => simp at h
  | cons y ys ih =>
    by_cases hy : p y
    · rw [List.find?_cons_of_pos _ hy] at h
      injection h with h
      subst h
      simp [updateFirstRet, hy]
    · rw [List.find?_cons_of_neg _ hy] at h
      simp only [updateFirstRet, if_neg hy]
      exact ih h

theorem updateFirstRet_fst_find? {p : α → Bool} {f : α → α} {l : List α} {x : α}
    (hpf : ∀ a, p a = true → p (f a) = true)
    (h : l.find? p = some x) : (updateFirstRet p f l).1.find? p = some (f x) := by
  induction l with
  | nil => simp at h
  | cons y ys ih =>
    by_cases hy : p y
    · rw [List.find?_cons_of_pos _ hy] at h
      injection h with h
      subst h
      simp only [updateFirstRet, if_pos hy]
      exact List.find?_cons_of_pos _ (hpf y hy)
    · rw [List.find?_cons_of_neg _ hy] at h
      simp only [updateFirstRet, if_neg hy]
      rw [List.find?_cons_of_neg _ hy]
      exact ih h

theorem find?_updateFirstRet_rev {p q : α → Bool} {f : α → α} {l : List α} {u' : α}
    (hqf : ∀ a, q (f a) = q a)
    (h : (updateFirstRet p f l).1.find? q = some u') :
    ∃ u, l.find? q = some u ∧ (u' = u ∨ u' = f u) := by
  induction l with
  | nil => simp [updateFirstRet] at h
  | cons y ys ih =>
    by_cases hy : p y
    · simp only [updateFirstRet, if_pos hy] at h
      by_cases hq : q y
      · rw [List.find?_cons_of_pos _ (by rw [hqf]; exact hq)] at h
        injection h with h
        exact ⟨y, List.find?_cons_of_pos _ hq, Or.inr h.symm⟩
      · rw [List.find?_cons_of_neg _ (by rw [hqf]; simpa using hq)] at h
        exact ⟨u', by rw [List.find?_cons_of_neg _ hq]; exact h, Or.inl rfl⟩
    · simp only [updateFirstRet, if_neg hy] at h
      by_cases hq : q y
      · rw [List.find?_cons_of_pos _ hq] at h
        injection h with h
        exact ⟨y, List.find?_cons_of_pos _ hq, Or.inl h.symm⟩
      · rw [List.find?_cons_of_neg _ hq] at h
        obtain ⟨u, hu, hor⟩ := ih h
        exact ⟨u, by rw [List.find?_cons_of_neg _ hq]; exact hu, hor⟩

theorem find?_updateFirstRet_isSome {p q : α → Bool} {f : α → α} {l : List α}
    (hqf : ∀ a, q (f a) = q a)
    (h : (l.find? q).isSome = true) :
    ((updateFirstRet p f l).1.find? q).isSome = true := by
  induction l with
  | nil => simp at h
  | cons y ys ih =>
    by_cases hq : q y
    · by_cases hy : p y
      · simp only [updateFirstRet, if_pos hy]
        rw [List.find?_cons_of_pos _ (by rw [hqf]; exact hq)]
        rfl
      · simp only [updateFirstRet, if_neg hy]
        rw [List.find?_cons_of_pos _ hq]
        rfl
    · rw [List.find?_cons_of_neg _ hq] at h
      by_cases hy : p y
      · simp only [updateFirstRet, if_pos hy]
        rw [List.find?_cons_of_neg _ (by rw [hqf]; simpa using hq)]
        exact h
      · simp only [updateFirstRet, if_neg hy]
        rw [List.find?_cons_of_neg _ hq]
        exact ih h

theorem mem_updateFirstRet {p : α → Bool} {f : α → α} {l : List α} {y : α}
    (h : y ∈ (updateFirstRet p f l).1) : y ∈ l ∨ ∃ x, x ∈ l ∧ y = f x := by
  induction l with
  | nil => simp [updateFirstRet] at h
  | cons z zs ih =>
    by_cases hz : p z
    · simp only [updateFirstRet, if_pos hz, List.mem_cons] at h
      rcases h with h | h
      · exact Or.inr ⟨z, List.mem_cons_self z zs, h⟩
      · exact Or.inl (List.mem_cons_of_mem _ h)
    · simp only [updateFirstRet, if_neg hz, List.mem_cons] at h
      rcases h with h | h
      · exact Or.inl (by simp [h])
      · rcases ih h with h' | ⟨x, hx, hy⟩
        · exact Or.inl (List.mem_cons_of_mem _ h')
        · exact Or.inr ⟨x, List.mem_cons_of_mem _ hx, hy⟩

/-! ### Helper lemmas: descending sort and ranking -/

theorem mem_insertKeyDesc [LinearOrder β] (key : α → β) (x : α) (l : List α) (a : α) :
    a ∈ insertKeyDesc key x l ↔ a = x ∨ a ∈ l := by
  induction l with
  | nil => simp [insertKeyDesc]
  | cons y ys ih =>
    simp only [insertKeyDesc]
    split
    · simp [List.mem_cons]
    · simp only [List.mem_cons, ih]
      tauto

theorem pairwise_insertKeyDesc [LinearOrder β] (key : α → β) (x : α) (l : List α)
    (h : l.Pairwise (fun a b => key b ≤ key a)) :
    (insertKeyDesc key x l).Pairwise (fun a b => key b ≤ key a) := by
  induction l with
  | nil => simp [insertKeyDesc]
  | cons y ys ih =>
    rcases h with - | ⟨hy, hys⟩
    simp only [insertKeyDesc]
    split
    · refine List.Pairwise.cons ?_ (List.Pairwise.cons hy hys)
      intro b hb
      rcases List.mem_cons.mp hb with rfl | hb
      · assumption
      · exact le_trans (hy b hb) (by assumption)
    · have hxy : key x ≤ key y := le_of_lt (lt_of_not_le (by assumption))
      refine List.Pairwise.cons ?_ (ih hys)
      intro b hb
      rcases (mem_insertKeyDesc key x ys b).mp hb with rfl | hb
      · exact hxy
      · exact hy b hb

theorem pairwise_sortKeyDesc [LinearOrder β] (key : α → β) (l : List α) :
    (sortKeyDesc key l).Pairwise (fun a b => key b ≤ key a) := by
  induction l with
  | nil => simp [sortKeyDesc]
  | cons x xs ih => exact pairwise_insertKeyDesc key x _ ih

theorem mem_sortKeyDesc [LinearOrder β] (key : α → β) (l : List α) (a : α) :
    a ∈ sortKeyDesc key l ↔ a ∈ l := by
  induction l with
  | nil => simp [sortKeyDesc]
  | cons x xs ih =>
    simp only [sortKeyDesc, mem_insertKeyDesc, List.mem_cons, ih]

theorem mem_rankify {l : List LBRow} {i : Nat} {e : LBEntry}
    (h : e ∈ rankify i l) : ∃ r, r ∈ l ∧ e.score = r.totalScore := by
  induction l generalizing i with
  | nil => simp [rankify] at h
  | cons r rs ih =>
    simp only [rankify, List.mem_cons] at h
    rcases h with rfl | h
    · exact ⟨r, List.mem_cons_self r rs, rfl⟩
    · obtain ⟨r', hr', he⟩ := ih h
      exact ⟨r', List.mem_cons_of_mem _ hr', he⟩

theorem rankify_get {l : List LBRow} :
    ∀ (i j : Nat) (h : j < (rankify i l).length),
      ((rankify i l).get ⟨j, h⟩).rank = i + j + 1 := by
  induction l with
  | nil => intro i j h; simp [rankify] at h
  | cons r rs ih =>
    intro i j h
    cases j with
    | zero => rfl
    | succ j =>
      have h' : j < (rankify (i + 1) rs).length := by
        simpa [rankify] using Nat.lt_of_succ_lt_succ h
      have := ih (i + 1) j h'
      simpa [rankify, Nat.add_assoc, Nat.add_comm, Nat.add_left_comm] using this

theorem pairwise_rankify {l : List LBRow} {i : Nat}
    (h : l.Pairwise (fun a b => b.totalScore ≤ a.totalScore)) :
    (rankify i l).Pairwise (fun a b => b.score ≤ a.score) := by
  induction l generalizing i with
  | nil => simp [rankify]
  | cons r rs ih =>
    rcases h with - | ⟨hr, hrs⟩
    refine List.Pairwise.cons ?_ (ih hrs)
    intro e he
    obtain ⟨r', hr', hscore⟩ := mem_rankify he
    simpa [lbEntryOf, hscore] using hr r' hr'

/-! ### Helper lemmas: the score pipeline -/

theorem createScore_eq_of_dup {db : DB} {now : Nat} {d : ScoreData}
    (hd : db.scores.any (fun e => e.walletAddress == jsToLower d.walletAddress &&
      e.quizId == d.quizId) = true) :
    createScore db now d = (db, .error .quizAlreadyCompleted) := by
  simp [createScore, mkScoreDoc, hd]

theorem createScore_eq_of_new {db : DB} {now : Nat} {d : ScoreData}
    (hd : db.scores.any (fun e => e.walletAddress == jsToLower d.walletAddress &&
      e.quizId == d.quizId) = false) :
    createScore db now d =
      ({ db with scores := db.scores ++ [mkScoreDoc now d] }, .ok (mkScoreDoc now d)) := by
  simp [createScore, mkScoreDoc, hd]

theorem countScoresFor_append (us : List User) (sc : List Score) (s : Score) (w : String) :
    countScoresFor ⟨us, sc ++ [s]⟩ w =
      countScoresFor ⟨us, sc⟩ w + (if s.walletAddress == w then 1 else 0) := by
  simp only [countScoresFor, List.filter_append, List.length_append]
  split
  · simp_all [List.filter_cons]
  · simp_all [List.filter_cons]

/-- Inversion of a successful `POST /api/scores` call: every validation
passed, a fresh ledger entry was appended, and the matched user was accrued
by the raw score. -/
theorem submitScore_ok_inv {db : DB} {now : Nat} {r : SubmitReq} {db' : DB} {resp : SubmitResp}
    (h : submitScore db now r = (db', Except.ok resp)) :
    ¬ (r.walletAddress = "" ∨ r.quizId = "" ∨ r.difficulty = "") ∧
    ¬ (r.score < 0 ∨ r.maxScore.getD 20 < r.score) ∧
    validDifficulties.contains (jsToLower r.difficulty) = true ∧
    (getUserByWallet db r.walletAddress).isSome = true ∧
    db.scores.any (fun e => e.walletAddress == jsToLower r.walletAddress &&
      e.quizId == r.quizId) = false ∧
    db'.scores = db.scores ++ [scoreEntry now r] ∧
    ∃ updatedUser : User,
      (updateFirstRet (accruePred r.walletAddress) (accrueFn now r.score) db.users).2
        = some updatedUser ∧
      db'.users =
        (updateFirstRet (accruePred r.walletAddress) (accrueFn now r.score) db.users).1 ∧
      resp = { score := r.score
               maxScore := (scoreEntry now r).maxScore
               percentage := jsRound (scoreEntry now r).percentage
               difficulty := jsToLower r.difficulty
               newTotalScore := updatedUser.totalScore
               eligibleForReward := decide (70 ≤ (scoreEntry now r).percentage)
               submittedAt := now } := by
  simp only [submitScore] at h
  by_cases h1 : r.walletAddress = "" ∨ r.quizId = "" ∨ r.difficulty = ""
  · rw [if_pos h1] at h
    exact absurd h (by simp)
  rw [if_neg h1] at h
  by_cases h2 : r.score < 0 ∨ r.maxScore.getD 20 < r.score
  · rw [if_pos h2] at h
    exact absurd h (by simp)
  rw [if_neg h2] at h
  by_cases h3 : validDifficulties.contains (jsToLower r.difficulty) = true
  case neg =>
    rw [if_pos h3] at h
    exact absurd h (by simp)
  rw [if_neg (not_not_intro h3)] at h
  by_cases h4 : (getUserByWallet db r.walletAddress).isNone = true
  · rw [if_pos h4] at h
    exact absurd h (by simp)
  rw [if_neg h4] at h
  have h4' : (getUserByWallet db r.walletAddress).isSome = true := by
    cases hgu : getUserByWallet db r.walletAddress
    · rw [hgu] at h4
      simp at h4
    · rfl
  by_cases h5 : db.scores.any (fun e => e.walletAddress == jsToLower r.walletAddress &&
      e.quizId == r.quizId) = true
  · rw [createScore_eq_of_dup h5] at h
    simp at h
  have h5' : db.scores.any (fun e => e.walletAddress == jsToLower r.walletAddress &&
      e.quizId == r.quizId) = false := by simpa using h5
  rw [createScore_eq_of_new h5'] at h
  simp only [updateUserTotalScore] at h
  rcases hupd : (updateFirstRet (accruePred r.walletAddress) (accrueFn now r.score)
      db.users).2 with - | uu
  · rw [hupd] at h
    simp at h
  rw [hupd] at h
  simp only [] at h
  injection h with hdb' hres
  injection hres with hres2
  refine ⟨h1, h2, h3, h4', h5', ?_, uu, rfl, ?_, ?_⟩
  · rw [← hdb']
    simp [scoreEntry]
  · rw [← hdb']
  · exact hres2.symm

theorem countScoresFor_eq (db : DB) (w : String) :
    countScoresFor db w = (db.scores.filter (fun s => s.walletAddress == w)).length := rfl

/-- One successful submission for wallet `w` (already lower-case and
trimmed) accrues exactly the raw score and appends exactly one ledger
entry for `w`. -/
theorem submitScore_ok_step {w : String} (hlow : jsToLower w = w)
    {db : DB} {now : Nat} {r : SubmitReq} {db' : DB} {resp : SubmitResp} {u : User}
    (hrw : r.walletAddress = w)
    (hu : db.users.find? (fun x => x.walletAddress == w) = some u)
    (h : submitScore db now r = (db', Except.ok resp)) :
    db'.users.find? (fun x => x.walletAddress == w) = some (accrueFn now r.score u) ∧
    countScoresFor db' w = countScoresFor db w + 1 := by
  obtain ⟨-, -, -, -, -, hscores, uu, hsnd, husers, -⟩ := submitScore_ok_inv h
  have hpred : (fun x : User => x.walletAddress == w) = accruePred r.walletAddress := by
    funext x
    rw [accruePred, hrw, hlow]
  constructor
  · rw [husers, hpred]
    rw [hpred] at hu
    exact updateFirstRet_fst_find? (fun a ha => ha) hu
  · rw [countScoresFor_eq, countScoresFor_eq, hscores, List.filter_append]
    simp [scoreEntry, mkScoreDoc, hrw, hlow]

/-- Folded form of `submitScore_ok_step`: a run of successful submissions
for `w` accrues the sum of the raw scores and appends one entry each. -/
theorem submitAll_ok_effects {w : String} (hlow : jsToLower w = w) :
    ∀ (reqs : List SubmitReq) (db : DB) (now : Nat) (u : User),
      (∀ r ∈ reqs, r.walletAddress = w) →
      db.users.find? (fun x => x.walletAddress == w) = some u →
      (submitAll db now reqs).2 = true →
      ∃ u', (submitAll db now reqs).1.users.find? (fun x => x.walletAddress == w) = some u' ∧
        u'.totalScore = u.totalScore + (reqs.map (fun r => r.score)).sum ∧
        countScoresFor (submitAll db now reqs).1 w = countScoresFor db w + reqs.length := by
  intro reqs
  induction reqs with
  | nil =>
    intro db now u hw hu hok
    exact ⟨u, hu, by simp [submitAll], by simp [submitAll]⟩
  | cons r rs ih =>
    intro db now u hw hu hok
    rcases hsub : submitScore db now r with ⟨db1, res⟩
    cases res with
    | error e =>
      rw [submitAll, hsub] at hok
      exact absurd hok (by simp)
    | ok resp =>
      have hrw : r.walletAddress = w := hw r (List.mem_cons_self r rs)
      obtain ⟨hu1, hcount1⟩ := submitScore_ok_step hlow hrw hu hsub
      have hall : (submitAll db now (r :: rs)).1 = (submitAll db1 (now + 1) rs).1 ∧
          (submitAll db now (r :: rs)).2 = (submitAll db1 (now + 1) rs).2 := by
        rw [submitAll, hsub]
        exact ⟨rfl, rfl⟩
      rw [hall.2] at hok
      obtain ⟨u', hfind, htot, hcnt⟩ :=
        ih db1 (now + 1) (accrueFn now r.score u) (fun x hx => hw x (List.mem_cons_of_mem r hx))
          hu1 hok
      refine ⟨u', by rw [hall.1]; exact hfind, ?_, ?_⟩
      · rw [htot]
        simp [accrueFn, add_assoc]
      · rw [hall.1, hcnt, hcount1]
        simp only [List.length_cons]
        omega

/-! ### Helper lemmas: the total-score invariant -/

theorem profileSetFn_totalScore (now : Nat) (ud : UpdateData) (u : User) :
    (profileSetFn now ud u).totalScore = u.totalScore := by
  rcases ud with ⟨un, pp⟩
  rcases un with - | s <;> rcases pp with - | v <;> simp [profileSetFn] <;> split <;> rfl

theorem profileSetFn_walletAddress (now : Nat) (ud : UpdateData) (u : User) :
    (profileSetFn now ud u).walletAddress = u.walletAddress := by
  rcases ud with ⟨un, pp⟩
  rcases un with - | s <;> rcases pp with - | v <;> simp [profileSetFn] <;> split <;> rfl

theorem accrueFn_walletAddress (now : Nat) (d : ℚ) (u : User) :
    (accrueFn now d u).walletAddress = u.walletAddress := rfl

/-- The user list after a `POST /api/users` request: unchanged, extended by
one fresh user with total `0`, or with one user's profile fields rewritten. -/
theorem postUsers_users_cases (db : DB) (now : Nat) (r : UserReq) :
    (postUsers db now r).1.users = db.users ∨
    (∃ nu : User, nu.totalScore = 0 ∧ (postUsers db now r).1.users = db.users ++ [nu]) ∨
    (∃ ud : UpdateData, (postUsers db now r).1.users =
      (updateFirstRet (fun u => u.walletAddress == jsTrim (jsToLower r.walletAddress))
        (profileSetFn now ud) db.users).1) := by
  simp only [postUsers]
  split
  · exact Or.inl rfl
  split
  · exact Or.inl rfl
  split
  · exact Or.inl rfl
  split
  · exact Or.inl rfl
  split
  · -- update path: the three response cases share the same store
    split <;>
    · simp only [updateUser]
      split
      · exact Or.inl rfl
      · exact Or.inr (Or.inr ⟨_, rfl⟩)
  · -- create path: every response case shares the created store
    split <;>
    · simp only [createUser]
      split
      · exact Or.inl rfl
      split
      · exact Or.inl rfl
      split
      · exact Or.inl rfl
      · exact Or.inr (Or.inl ⟨_, rfl, rfl⟩)

/-- The user list after a `POST /api/scores` request: unchanged, or with one
user's total accrued by the validated non-negative raw score. -/
theorem submitScore_users_cases (db : DB) (now : Nat) (r : SubmitReq) :
    (submitScore db now r).1.users = db.users ∨
    (0 ≤ r.score ∧ (submitScore db now r).1.users =
      (updateFirstRet (accruePred r.walletAddress) (accrueFn now r.score) db.users).1) := by
  simp only [submitScore]
  split
  · exact Or.inl rfl
  split
  · exact Or.inl rfl
  split
  · exact Or.inl rfl
  split
  · exact Or.inl rfl
  case isFalse h1 h2 h3 h4 =>
    have hpos : 0 ≤ r.score := by
      push_neg at h2
      exact h2.1
    by_cases h5 : db.scores.any (fun e => e.walletAddress == jsToLower r.walletAddress &&
        e.quizId == r.quizId) = true
    · rw [createScore_eq_of_dup h5]
      exact Or.inl rfl
    · rw [createScore_eq_of_new (by simpa using h5)]
      simp only [updateUserTotalScore]
      split
      · exact Or.inr ⟨hpos, rfl⟩
      · exact Or.inr ⟨hpos, rfl⟩

/-- Any step keeps every stored total non-negative. -/
theorem step_nonneg {db db' : DB} (h : Step db db')
    (hinv : ∀ u ∈ db.users, 0 ≤ u.totalScore) :
    ∀ u' ∈ db'.users, 0 ≤ u'.totalScore := by
  cases h with
  | postUsers now r =>
    intro u' hu'
    rcases postUsers_users_cases db now r with hsame | ⟨nu, hnu, happ⟩ | ⟨ud, hupd⟩
    · exact hinv u' (hsame ▸ hu')
    · rw [happ] at hu'
      rcases List.mem_append.mp hu' with hmem | hmem
      · exact hinv u' hmem
      · rw [List.mem_singleton.mp hmem, hnu]
    · rw [hupd] at hu'
      rcases mem_updateFirstRet hu' with hmem | ⟨x, hx, rfl⟩
      · exact hinv u' hmem
      · rw [profileSetFn_totalScore]
        exact hinv x hx
  | submitScore now r =>
    intro u' hu'
    rcases submitScore_users_cases db now r with hsame | ⟨hpos, hupd⟩
    · exact hinv u' (hsame ▸ hu')
    · rw [hupd] at hu'
      rcases mem_updateFirstRet hu' with hmem | ⟨x, hx, rfl⟩
      · exact hinv u' hmem
      · exact le_trans (hinv x hx) (le_add_of_nonneg_right hpos)

/-- Every reachable state has only non-negative totals. -/
theorem reachable_nonneg {db : DB} (h : Reachable db) :
    ∀ u ∈ db.users, 0 ≤ u.totalScore := by
  induction h with
  | base => intro u hu; simp [emptyDB] at hu
  | step hr hs ih => exact step_nonneg hs ih

/-- Any step relates each wallet's record before and after by `totalLB`:
existing totals never decrease and new records start at `0`. -/
theorem step_totalLB {db db' : DB} (h : Step db db') (wa : String) (u' : User)
    (hfind : findUserRaw db' wa = some u') : totalLB (findUserRaw db wa) u' := by
  cases h with
  | postUsers now r =>
    rcases postUsers_users_cases db now r with hsame | ⟨nu, hnu, happ⟩ | ⟨ud, hupd⟩
    · rw [findUserRaw, hsame, ← findUserRaw] at hfind
      rw [hfind, totalLB]
    · rw [findUserRaw, happ, List.find?_append] at hfind
      rcases hprev : findUserRaw db wa with - | u
      · rw [findUserRaw] at hprev
        rw [hprev, Option.none_or] at hfind
        have hnueq : nu = u' := by
          by_cases hp : (nu.walletAddress == wa) = true
          · simp [List.find?, hp] at hfind
            exact hfind
          · simp [List.find?, hp] at hfind
        rw [totalLB, ← hnueq, hnu]
      · rw [findUserRaw] at hprev
        rw [hprev, Option.or_some] at hfind
        injection hfind with hfind
        rw [totalLB, hfind]
    · rw [findUserRaw, hupd] at hfind
      obtain ⟨u, hu, hor⟩ := find?_updateFirstRet_rev
        (fun a => by rw [profileSetFn_walletAddress]) hfind
      rw [findUserRaw, hu, totalLB]
      rcases hor with rfl | rfl
      · exact le_refl _
      · rw [profileSetFn_totalScore]
  | submitScore now r =>
    rcases submitScore_users_cases db now r with hsame | ⟨hpos, hupd⟩
    · rw [findUserRaw, hsame, ← findUserRaw] at hfind
      rw [hfind, totalLB]
    · rw [findUserRaw, hupd] at hfind
      obtain ⟨u, hu, hor⟩ := find?_updateFirstRet_rev
        (fun a => by rw [accrueFn_walletAddress]) hfind
      rw [findUserRaw, hu, totalLB]
      rcases hor with rfl | rfl
      · exact le_refl _
      · exact le_add_of_nonneg_right hpos

/-! ### Claims -/

/-- C1: for every participant, after `N` successful `submitScore` calls on
`N` distinct quiz identifiers with raw scores `s₁..sₙ`, starting from a
freshly created participant with total score `0`, the participant's total
score equals `s₁+...+sₙ` exactly, and the history for that participant
reports `totalCount = N`. -/
theorem submitScore_accumulates_exact_total (db : DB) (now : Nat) (w : String) (u : User)
    (reqs : List SubmitReq)
    (hlow : jsToLower w = w) (htrim : jsTrim w = w)
    (_hdistinct : (reqs.map (fun r => r.quizId)).Nodup)
    (hw : ∀ r ∈ reqs, r.walletAddress = w)
    (hu : getUserByWallet db w = some u) (hu0 : u.totalScore = 0)
    (hfresh : countScoresFor db w = 0)
    (hok : (submitAll db now reqs).2 = true) :
    (getUserByWallet (submitAll db now reqs).1 w).map (fun x => x.totalScore)
      = some ((reqs.map (fun r => r.score)).sum) ∧
    ∀ limit offset : Int,
      (getUserScoreHistory (submitAll db now reqs).1 w limit offset).total = reqs.length := by
  have hgw : ∀ dbx : DB, getUserByWallet dbx w = dbx.users.find? (fun x => x.walletAddress == w) := by
    intro dbx
    rw [getUserByWallet, hlow, htrim, findUserRaw]
  rw [hgw] at hu
  obtain ⟨u', hfind, htot, hcnt⟩ := submitAll_ok_effects hlow reqs db now u hw hu hok
  constructor
  · rw [hgw, hfind]
    simp [htot, hu0]
  · intro limit offset
    have htotal : (getUserScoreHistory (submitAll db now reqs).1 w limit offset).total
        = countScoresFor (submitAll db now reqs).1 (jsToLower w) := rfl
    rw [htotal, hlow, hcnt, hfresh]
    omega

/-- Witness for C1 at a concrete two-submission run. -/
theorem submitScore_accumulates_exact_total_witness :
    jsToLower "0xaa" = "0xaa" ∧ jsTrim "0xaa" = "0xaa" ∧
    ([reqQ1, reqQ2].map (fun r => r.quizId)).Nodup ∧
    (∀ r ∈ [reqQ1, reqQ2], r.walletAddress = "0xaa") ∧
    getUserByWallet aliceDB "0xaa" = some aliceUser ∧
    aliceUser.totalScore = 0 ∧ countScoresFor aliceDB "0xaa" = 0 ∧
    (submitAll aliceDB 0 [reqQ1, reqQ2]).2 = true ∧
    ((getUserByWallet (submitAll aliceDB 0 [reqQ1, reqQ2]).1 "0xaa").map
        (fun x => x.totalScore)
      = some (([reqQ1, reqQ2].map (fun r => r.score)).sum) ∧
     ∀ limit offset : Int,
       (getUserScoreHistory (submitAll aliceDB 0 [reqQ1, reqQ2]).1 "0xaa" limit offset).total
         = [reqQ1, reqQ2].length) :=
  ⟨by decide, by decide, by decide, by decide, by with_unfolding_all decide,
   by with_unfolding_all decide, by decide, by with_unfolding_all decide,
   submitScore_accumulates_exact_total aliceDB 0 "0xaa" aliceUser [reqQ1, reqQ2]
     (by decide) (by decide) (by decide) (by decide) (by with_unfolding_all decide)
     (by with_unfolding_all decide) (by decide) (by with_unfolding_all decide)⟩

/-- C2: once a submission for `(identifier, quizId)` has succeeded, a second
(well-formed) submission for the same pair fails with the duplicate-attempt
conflict (HTTP 409) and leaves the store — in particular the total score —
exactly as it was. -/
theorem submitScore_duplicate_conflict (db : DB) (t1 t2 : Nat) (r r2 : SubmitReq)
    (db1 : DB) (resp : SubmitResp)
    (h : submitScore db t1 r = (db1, Except.ok resp))
    (hw : r2.walletAddress = r.walletAddress) (hq : r2.quizId = r.quizId)
    (hscore : ¬ (r2.score < 0 ∨ r2.maxScore.getD 20 < r2.score))
    (hdiff : validDifficulties.contains (jsToLower r2.difficulty) = true) :
    submitScore db1 t2 r2 = (db1, Except.error SubmitErr.duplicateAttempt) ∧
    httpStatus SubmitErr.duplicateAttempt = 409 := by
  obtain ⟨h1, -, -, h4, -, hscores, uu, hsnd, husers, -⟩ := submitScore_ok_inv h
  push_neg at h1
  obtain ⟨hwa, hqz, -⟩ := h1
  have hdne : r2.difficulty ≠ "" := by
    intro he
    rw [he] at hdiff
    exact absurd hdiff (by decide)
  have h1' : ¬ (r2.walletAddress = "" ∨ r2.quizId = "" ∨ r2.difficulty = "") := by
    push_neg
    exact ⟨by rw [hw]; exact hwa, by rw [hq]; exact hqz, hdne⟩
  rw [getUserByWallet, findUserRaw] at h4
  have hsome : (getUserByWallet db1 r2.walletAddress).isSome = true := by
    rw [hw, getUserByWallet, findUserRaw, husers]
    exact find?_updateFirstRet_isSome (fun a => by rw [accrueFn_walletAddress]) h4
  obtain ⟨xu, hxu⟩ := Option.isSome_iff_exists.mp hsome
  have h4' : ¬ ((getUserByWallet db1 r2.walletAddress).isNone = true) := by
    rw [hxu]
    simp
  have hdup : db1.scores.any (fun e => e.walletAddress == jsToLower r2.walletAddress &&
      e.quizId == r2.quizId) = true := by
    rw [hscores, hw, hq, List.any_append]
    simp [scoreEntry, mkScoreDoc]
  refine ⟨?_, rfl⟩
  simp only [submitScore]
  rw [if_neg h1', if_neg hscore, if_neg (not_not_intro hdiff), if_neg h4']
  rw [createScore_eq_of_dup hdup]

/-- Witness for C2: resubmitting the very same request conflicts. -/
theorem submitScore_duplicate_conflict_witness :
    submitScore aliceDB 0 reqQ1 = (dbQ1, Except.ok respQ1) ∧
    ¬ (reqQ1.score < 0 ∨ reqQ1.maxScore.getD 20 < reqQ1.score) ∧
    validDifficulties.contains (jsToLower reqQ1.difficulty) = true ∧
    (submitScore dbQ1 1 reqQ1 = (dbQ1, Except.error SubmitErr.duplicateAttempt) ∧
     httpStatus SubmitErr.duplicateAttempt = 409) :=
  ⟨by with_unfolding_all decide, by with_unfolding_all decide, by decide,
   submitScore_duplicate_conflict aliceDB 0 1 reqQ1 reqQ1 dbQ1 respQ1
     (by with_unfolding_all decide) rfl rfl (by with_unfolding_all decide) (by decide)⟩

/-- C3: a successful submission with a positive explicit `maxScore` stores
`percentage = rawScore / maxScore * 100` computed at write time, and the
response's `eligibleForReward` holds exactly when that stored percentage is
at least `70`. -/
theorem submitScore_percentage_and_eligibility (db : DB) (now : Nat) (r : SubmitReq)
    (db' : DB) (resp : SubmitResp) (m : ℚ)
    (hm : r.maxScore = some m) (hm0 : 0 < m)
    (h : submitScore db now r = (db', Except.ok resp)) :
    db'.scores = db.scores ++ [scoreEntry now r] ∧
    (scoreEntry now r).percentage = r.score / m * 100 ∧
    (resp.eligibleForReward = true ↔ 70 ≤ (scoreEntry now r).percentage) := by
  obtain ⟨-, -, -, -, -, hscores, uu, -, -, hresp⟩ := submitScore_ok_inv h
  refine ⟨hscores, ?_, ?_⟩
  · have hgd : r.maxScore.getD 20 = m := by rw [hm]; rfl
    simp [scoreEntry, mkScoreDoc, hgd, ne_of_gt hm0]
  · rw [hresp]
    simp

/-- Witness for C3 at the 18-out-of-20 submission. -/
theorem submitScore_percentage_and_eligibility_witness :
    reqQ1.maxScore = some 20 ∧ (0:ℚ) < 20 ∧
    submitScore aliceDB 0 reqQ1 = (dbQ1, Except.ok respQ1) ∧
    (dbQ1.scores = aliceDB.scores ++ [scoreEntry 0 reqQ1] ∧
     (scoreEntry 0 reqQ1).percentage = reqQ1.score / 20 * 100 ∧
     (respQ1.eligibleForReward = true ↔ 70 ≤ (scoreEntry 0 reqQ1).percentage)) :=
  ⟨rfl, by with_unfolding_all decide, by with_unfolding_all decide,
   submitScore_percentage_and_eligibility aliceDB 0 reqQ1 dbQ1 respQ1 20 rfl
     (by with_unfolding_all decide) (by with_unfolding_all decide)⟩

/-- C9 (amended): `maxScore` is never validated to be positive — a
submission with `maxScore = 0` and `rawScore = 0` passes the range
validation — but the stored percentage is not a division by zero: the
`|| 20` fallback in `createScore` substitutes divisor `20`, so the entry
stores `maxScore = 20` and `percentage = 0`, a number inside `[0, 100]`. -/
theorem maxScore_zero_stores_percentage_zero (db : DB) (now : Nat) (r : SubmitReq)
    (db' : DB) (resp : SubmitResp)
    (hmax : r.maxScore = some 0) (hs0 : r.score = 0)
    (h : submitScore db now r = (db', Except.ok resp)) :
    ¬ (r.score < 0 ∨ r.maxScore.getD 20 < r.score) ∧
    db'.scores = db.scores ++ [scoreEntry now r] ∧
    (scoreEntry now r).maxScore = 20 ∧
    (scoreEntry now r).percentage = 0 ∧
    (0:ℚ) ≤ (scoreEntry now r).percentage ∧ (scoreEntry now r).percentage ≤ 100 := by
  obtain ⟨-, h2, -, -, -, hscores, -⟩ := submitScore_ok_inv h
  have hgd : r.maxScore.getD 20 = 0 := by rw [hmax]; rfl
  have hpct : (scoreEntry now r).percentage = 0 := by
    simp [scoreEntry, mkScoreDoc, hgd, hs0]
  refine ⟨h2, hscores, ?_, hpct, by simp [hpct], by rw [hpct]; norm_num⟩
  simp [scoreEntry, mkScoreDoc, hgd]

/-- Witness for C9: the concrete `maxScore = 0` submission succeeds. -/
theorem maxScore_zero_stores_percentage_zero_witness :
    reqZero.maxScore = some 0 ∧ reqZero.score = 0 ∧
    submitScore aliceDB 0 reqZero = (dbZ, Except.ok respZ) ∧
    (¬ (reqZero.score < 0 ∨ reqZero.maxScore.getD 20 < reqZero.score) ∧
     dbZ.scores = aliceDB.scores ++ [scoreEntry 0 reqZero] ∧
     (scoreEntry 0 reqZero).maxScore = 20 ∧
     (scoreEntry 0 reqZero).percentage = 0 ∧
     (0:ℚ) ≤ (scoreEntry 0 reqZero).percentage ∧ (scoreEntry 0 reqZero).percentage ≤ 100) :=
  ⟨rfl, rfl, by with_unfolding_all decide,
   maxScore_zero_stores_percentage_zero aliceDB 0 reqZero dbZ respZ rfl rfl
     (by with_unfolding_all decide)⟩

/-- Counterexample for C9 as frozen: with `maxScore = 0`, `rawScore = 0`,
the call succeeds and the stored entry holds `percentage = 0` (a number in
`[0, 100]`) and `maxScore = 20` — not the claimed `0/0` not-a-number. -/
theorem maxScore_zero_not_nan :
    submitScore aliceDB 0 reqZero = (dbZ, Except.ok respZ) ∧
    (scoreEntry 0 reqZero).percentage = 0 ∧
    (scoreEntry 0 reqZero).maxScore = 20 ∧
    (0:ℚ) ≤ (scoreEntry 0 reqZero).percentage ∧ (scoreEntry 0 reqZero).percentage ≤ 100 := by
  with_unfolding_all decide

/-- C10: the stored percentage is the exact value, the response's
`percentage` is its rounding (`Math.round`), and the response's
`eligibleForReward` is computed from the exact unrounded value. -/
theorem response_percentage_rounded_eligibility_exact (db : DB) (now : Nat) (r : SubmitReq)
    (db' : DB) (resp : SubmitResp)
    (h : submitScore db now r = (db', Except.ok resp)) :
    db'.scores = db.scores ++ [scoreEntry now r] ∧
    resp.percentage = jsRound (scoreEntry now r).percentage ∧
    (resp.eligibleForReward = true ↔ 70 ≤ (scoreEntry now r).percentage) := by
  obtain ⟨-, -, -, -, -, hscores, uu, -, -, hresp⟩ := submitScore_ok_inv h
  refine ⟨hscores, by rw [hresp], by rw [hresp]; simp⟩

/-- Witness for C10 at exactly 69.5%: the response reports percentage `70`
together with `eligibleForReward = false`. -/
theorem response_percentage_rounded_eligibility_exact_witness :
    submitScore aliceDB 0 reqHalf = (dbH, Except.ok respH) ∧
    (dbH.scores = aliceDB.scores ++ [scoreEntry 0 reqHalf] ∧
     respH.percentage = jsRound (scoreEntry 0 reqHalf).percentage ∧
     (respH.eligibleForReward = true ↔ 70 ≤ (scoreEntry 0 reqHalf).percentage)) ∧
    respH.percentage = 70 ∧
    respH.eligibleForReward = false ∧
    ¬ (70 ≤ (scoreEntry 0 reqHalf).percentage) :=
  ⟨by with_unfolding_all decide,
   response_percentage_rounded_eligibility_exact aliceDB 0 reqHalf dbH respH
     (by with_unfolding_all decide),
   rfl, rfl, by with_unfolding_all decide⟩

/-- C4 (amended): the leaderboard contains only participants with positive
total score, is ordered by total score descending with contiguous 1-based
ranks, and the requested size is capped above at `500` (with positive
requests honoured up to the cap) — but a negative request is passed through
rather than raised to `1`. -/
theorem leaderboard_amended_properties (db : DB) (n : Nat) (q : Option Int) (m : Int)
    (hm : 1 ≤ m) :
    (∀ e ∈ getLeaderboard db n, 0 < e.score) ∧
    (getLeaderboard db n).Pairwise (fun a b => b.score ≤ a.score) ∧
    (∀ (i : Nat) (hi : i < (getLeaderboard db n).length),
      ((getLeaderboard db n).get ⟨i, hi⟩).rank = i + 1) ∧
    effLeaderboardLimit q ≤ 500 ∧
    effLeaderboardLimit (some m) = min m 500 ∧ 1 ≤ effLeaderboardLimit (some m) := by
  have hne : m ≠ 0 := by omega
  refine ⟨?_, ?_, ?_, min_le_right _ _, by simp [effLeaderboardLimit, hne], ?_⟩
  · intro e he
    simp only [getLeaderboard] at he
    obtain ⟨row, hrow, hscore⟩ := mem_rankify he
    have hrow' := List.take_subset _ _ hrow
    rw [mem_sortKeyDesc] at hrow'
    obtain ⟨u0, hu0, rfl⟩ := List.mem_map.mp hrow'
    have hpos := of_decide_eq_true (List.mem_filter.mp hu0).2
    rw [hscore]
    simpa [lbRowOf] using hpos
  · simp only [getLeaderboard]
    exact pairwise_rankify ((pairwise_sortKeyDesc _ _).sublist (List.take_sublist _ _))
  · intro i hi
    simp only [getLeaderboard] at hi ⊢
    simpa using rankify_get 0 i hi
  · simp only [effLeaderboardLimit, hne, if_false]
    exact le_min hm (by norm_num)

/-- Witness for C4 (amended) at a concrete store and size. -/
theorem leaderboard_amended_properties_witness :
    (1:Int) ≤ 7 ∧
    ((∀ e ∈ getLeaderboard dbQ1 10, 0 < e.score) ∧
     (getLeaderboard dbQ1 10).Pairwise (fun a b => b.score ≤ a.score) ∧
     (∀ (i : Nat) (hi : i < (getLeaderboard dbQ1 10).length),
       ((getLeaderboard dbQ1 10).get ⟨i, hi⟩).rank = i + 1) ∧
     effLeaderboardLimit none ≤ 500 ∧
     effLeaderboardLimit (some 7) = min 7 500 ∧ 1 ≤ effLeaderboardLimit (some 7)) :=
  ⟨by decide, leaderboard_amended_properties dbQ1 10 none 7 (by decide)⟩

/-- Counterexample for C4 as frozen: the effective leaderboard size for the
request `-3` is `-3`, which is not clamped into `[1, 500]`. -/
theorem leaderboard_limit_not_clamped_below :
    effLeaderboardLimit (some (-3)) = -3 ∧ ¬ ((1:Int) ≤ effLeaderboardLimit (some (-3))) := by
  decide

/-- C7 (amended): the history page size is capped above at `100` (with
positive requests honoured up to the cap), the offset is clamped to be
non-negative, and the returned entries are ordered by creation time
descending — but a negative size request is passed through rather than
raised to `1`. -/
theorem history_amended_properties (q : Option Int) (m : Int) (hm : 1 ≤ m) (db : DB)
    (w : String) (limit offset : Int) :
    effHistoryLimit q ≤ 100 ∧
    effHistoryLimit (some m) = min m 100 ∧ 1 ≤ effHistoryLimit (some m) ∧
    0 ≤ effHistoryOffset q ∧
    (getUserScoreHistory db w limit offset).scores.Pairwise
      (fun a b => b.createdAt ≤ a.createdAt) := by
  have hne : m ≠ 0 := by omega
  refine ⟨min_le_right _ _, by simp [effHistoryLimit, hne], ?_, le_max_right _ _, ?_⟩
  · simp only [effHistoryLimit, hne, if_false]
    exact le_min hm (by norm_num)
  · simp only [getUserScoreHistory]
    exact ((pairwise_sortKeyDesc _ _).sublist (List.drop_sublist _ _)).sublist
      (List.take_sublist _ _)

/-- Witness for C7 (amended) at a concrete store and query. -/
theorem history_amended_properties_witness :
    (1:Int) ≤ 5 ∧
    (effHistoryLimit none ≤ 100 ∧
     effHistoryLimit (some 5) = min 5 100 ∧ 1 ≤ effHistoryLimit (some 5) ∧
     0 ≤ effHistoryOffset none ∧
     (getUserScoreHistory dbQ1 "0xaa" 20 0).scores.Pairwise
       (fun a b => b.createdAt ≤ a.createdAt)) :=
  ⟨by decide, history_amended_properties none 5 (by decide) dbQ1 "0xaa" 20 0⟩

/-- Counterexample for C7 as frozen: the effective history page size for the
request `-5` is `-5`, which is not clamped into `[1, 100]`. -/
theorem history_limit_not_clamped_below :
    effHistoryLimit (some (-5)) = -5 ∧ ¬ ((1:Int) ≤ effHistoryLimit (some (-5))) := by
  decide

/-- C5 (amended): the MongoDB revision accrues through the single atomic
`$inc` of `updateUserTotalScore`, so racing two accruals for the same
participant yields the sum of both deltas in either interleaving — no lost
update. -/
theorem mongo_accrual_no_lost_update (db : DB) (now : Nat) (w : String) (u : User)
    (d1 d2 : ℚ) (sched : List IncAct)
    (hsched : sched = [IncAct.inc1, IncAct.inc2] ∨ sched = [IncAct.inc2, IncAct.inc1])
    (hu : db.users.find? (accruePred w) = some u) :
    ((runIncSchedule now w d1 d2 db sched).users.find? (accruePred w)).map
      (fun x => x.totalScore) = some (u.totalScore + d1 + d2) := by
  have hstep : ∀ (dbx : DB) (ux : User) (d : ℚ),
      dbx.users.find? (accruePred w) = some ux →
      (updateUserTotalScore dbx now w d).1.users.find? (accruePred w)
        = some (accrueFn now d ux) := by
    intro dbx ux d hx
    simp only [updateUserTotalScore]
    exact updateFirstRet_fst_find? (fun a ha => ha) hx
  rcases hsched with rfl | rfl
  · simp only [runIncSchedule, List.foldl]
    rw [hstep _ _ _ (hstep _ _ _ hu)]
    simp [accrueFn]
  · simp only [runIncSchedule, List.foldl]
    rw [hstep _ _ _ (hstep _ _ _ hu)]
    simp [accrueFn]
    ring

/-- Witness for C5 (amended) at a concrete race. -/
theorem mongo_accrual_no_lost_update_witness :
    ([IncAct.inc2, IncAct.inc1] = [IncAct.inc1, IncAct.inc2] ∨
      [IncAct.inc2, IncAct.inc1] = [IncAct.inc2, IncAct.inc1]) ∧
    aliceDB.users.find? (accruePred "0xaa") = some aliceUser ∧
    ((runIncSchedule 0 "0xaa" 1 2 aliceDB [IncAct.inc2, IncAct.inc1]).users.find?
      (accruePred "0xaa")).map (fun x => x.totalScore) = some (aliceUser.totalScore + 1 + 2) :=
  ⟨Or.inr rfl, by with_unfolding_all decide,
   mongo_accrual_no_lost_update aliceDB 0 "0xaa" aliceUser 1 2 _ (Or.inr rfl)
     (by with_unfolding_all decide)⟩

/-- Counterexample for C5 as frozen: the SQLite revision accrues by an
application-level read-modify-write, and the interleaving fetch-fetch-
write-write loses the first update: starting from total `0` with deltas `1`
and `2`, the final total is `2`, not `0 + 1 + 2`. -/
theorem sqlite_accrual_lost_update :
    (runSqliteRace 1 2 ⟨0, none, none⟩
      [RaceAct.fetch1, RaceAct.fetch2, RaceAct.write1, RaceAct.write2]).total = 2 ∧
    ¬ ((2:ℚ) = 0 + 1 + 2) :=
  ⟨by with_unfolding_all decide, by norm_num⟩

/-- C6: in every reachable state each participant's total score is
non-negative, and a step of any exposed operation never decreases a stored
total: a wallet present before keeps at least its old total and a wallet
that appears starts at total `0`. -/
theorem totalScore_nonneg_and_monotone (db db' : DB) (hr : Reachable db) (hs : Step db db') :
    (∀ u ∈ db.users, 0 ≤ u.totalScore) ∧
    (∀ u' ∈ db'.users, 0 ≤ u'.totalScore) ∧
    (∀ (wa : String) (u' : User), findUserRaw db' wa = some u' →
      totalLB (findUserRaw db wa) u') :=
  ⟨reachable_nonneg hr, step_nonneg hs (reachable_nonneg hr),
   fun wa u' h => step_totalLB hs wa u' h⟩

/-- Witness for C6 at the first creation step from the empty store. -/
theorem totalScore_nonneg_and_monotone_witness :
    (∀ u ∈ emptyDB.users, 0 ≤ u.totalScore) ∧
    (∀ u' ∈ (postUsers emptyDB 0 ⟨wa40, "alice", none⟩).1.users, 0 ≤ u'.totalScore) ∧
    (∀ (wa : String) (u' : User),
      findUserRaw (postUsers emptyDB 0 ⟨wa40, "alice", none⟩).1 wa = some u' →
      totalLB (findUserRaw emptyDB wa) u') :=
  totalScore_nonneg_and_monotone emptyDB (postUsers emptyDB 0 ⟨wa40, "alice", none⟩).1
    Reachable.base (Step.postUsers emptyDB 0 ⟨wa40, "alice", none⟩)

/-- C8 (amended): the storage-layer `createUser`, called with an
already-registered identifier and otherwise valid fields, fails with
`USER_ALREADY_EXISTS` and leaves the store unchanged (no new record). -/
theorem createUser_duplicate_fails_already_exists (db : DB) (now : Nat) (ud : UserData)
    (hdup : db.users.any (fun u => u.walletAddress == jsTrim (jsToLower ud.walletAddress))
      = true)
    (hwf : isValidWalletAddress (jsTrim (jsToLower ud.walletAddress)) = true)
    (hname : ¬ ((jsTrim ud.username).data.length < 3 ∨ 30 < (jsTrim ud.username).data.length)) :
    createUser db now ud = (db, Except.error DbErr.userAlreadyExists) := by
  simp only [createUser]
  rw [if_neg (not_not_intro hwf), if_neg hname, if_pos hdup]

/-- Witness for C8 (amended) at a concrete duplicate registration. -/
theorem createUser_duplicate_fails_already_exists_witness :
    bobDB.users.any (fun u => u.walletAddress == jsTrim (jsToLower wa40)) = true ∧
    isValidWalletAddress (jsTrim (jsToLower wa40)) = true ∧
    ¬ ((jsTrim "carol").data.length < 3 ∨ 30 < (jsTrim "carol").data.length) ∧
    createUser bobDB 2 ⟨wa40, "carol", none⟩ = (bobDB, Except.error DbErr.userAlreadyExists) :=
  ⟨by with_unfolding_all decide, by decide, by decide,
   createUser_duplicate_fails_already_exists bobDB 2 ⟨wa40, "carol", none⟩
     (by with_unfolding_all decide) (by decide) (by decide)⟩

/-- Counterexample for C8 as frozen: `POST /api/users` with an
already-registered identifier does not fail — it updates the profile and
succeeds (no new record is created); and the storage-layer `createUser`
checks field validation before uniqueness, so a duplicate registration with
a too-short name fails with `INVALID_USERNAME_LENGTH`, not `AlreadyExists`. -/
theorem postUsers_duplicate_updates_instead :
    (postUsers bobDB 1 ⟨wa40, "bobby", none⟩).2 =
      Except.ok (UserResp.updated ⟨wa40, "bobby", none, 0, "beginner", 0, 1⟩) ∧
    (postUsers bobDB 1 ⟨wa40, "bobby", none⟩).1.users.length = bobDB.users.length ∧
    (createUser bobDB 1 ⟨wa40, "ab", none⟩).2 = Except.error DbErr.invalidUsernameLength := by
  with_unfolding_all decide

end CryptoQuest
